import Mathlib

/-!
# Verification of `py_img_collage/create.py`

A shallow embedding, in Lean 4, of the collage builder in
`src/py_img_collage/create.py`, together with theorems settling the
specification claims about it.

The script has three parts, each embedded below:

* `get_sorted_image_paths` (lines 9-33): directory discovery — sorted
  subfolders, sorted `.webp`/`.jpg` files inside each.
* `create_collage` (lines 35-134): grid geometry, a memmapped RGBA canvas,
  per-image aspect-fit placement, RGB finalization.  We embed it at two
  levels: a pixel-level model (`runImagesAux` and friends) for claims about
  canvas contents, and an event-trace model (`createCollageTrace`,
  `mainTrace`) for claims about control flow and resource lifetime.
* `main` (lines 136-179): CLI wrapper; folder-count reporting and the
  zero-image early exit.

Machine integers do not overflow here (Python ints are unbounded), so all
arithmetic is over `ℕ`, with `ℚ`/`ℝ` used only to state the real-valued
formulas (`math.sqrt`, true division) that the integer code implements.
-/

namespace ImageCollage

/-! ## Grid geometry (create.py lines 47-51) -/

/-- Models `ncols = math.ceil(math.sqrt(total_images))` (create.py line 48),
as a `ℕ`-valued function: the ceiling of the real square root of `n` is
`Nat.sqrt n` when `n` is a perfect square and `Nat.sqrt n + 1` otherwise
(proved in `ncols_eq_ceil_real_sqrt`). -/
def ncols (n : ℕ) : ℕ :=
  if Nat.sqrt n * Nat.sqrt n = n then Nat.sqrt n else Nat.sqrt n + 1

/-- Models `nrows = math.ceil(total_images / ncols)` (create.py line 49):
ceiling division of `n` by `ncols n` (proved equal to the rational ceiling
in `nrows_eq_ceil_div`). -/
def nrows (n : ℕ) : ℕ := (n + ncols n - 1) / ncols n

/-- Models `collage_width = ncols * cell_size` (create.py line 50). -/
def collage_width (n cell : ℕ) : ℕ := ncols n * cell

/-- Models `collage_height = nrows * cell_size` (create.py line 51). -/
def collage_height (n cell : ℕ) : ℕ := nrows n * cell

lemma sqrt_sq_lt_of_ne (n : ℕ) (h : Nat.sqrt n * Nat.sqrt n ≠ n) :
    Nat.sqrt n * Nat.sqrt n < n :=
  lt_of_le_of_ne (Nat.sqrt_le n) h

lemma ncols_eq_ceil_real_sqrt (n : ℕ) : ncols n = ⌈Real.sqrt n⌉₊ := by
  by_cases h : Nat.sqrt n * Nat.sqrt n = n
  · rw [ncols, if_pos h]
    have hs : Real.sqrt n = (Nat.sqrt n : ℝ) := by
      have hcast : ((n : ℝ)) = (Nat.sqrt n : ℝ) * (Nat.sqrt n : ℝ) := by
        exact_mod_cast h.symm
      rw [hcast, Real.sqrt_mul_self (Nat.cast_nonneg _)]
    rw [hs, Nat.ceil_natCast]
  · rw [ncols, if_neg h]
    have h1 : Nat.sqrt n * Nat.sqrt n < n := sqrt_sq_lt_of_ne n h
    symm
    rw [Nat.ceil_eq_iff (Nat.succ_ne_zero _)]
    constructor
    · have h2 : ((Nat.sqrt n : ℝ)) ^ 2 < (n : ℝ) := by
        rw [sq]
        exact_mod_cast h1
      have h3 : ((Nat.sqrt n : ℝ)) < Real.sqrt n :=
        (Real.lt_sqrt (Nat.cast_nonneg _)).mpr h2
      simpa using h3
    · have h4 : Real.sqrt n ≤ (Nat.sqrt n : ℝ) + 1 :=
        Real.real_sqrt_le_nat_sqrt_succ
      push_cast
      exact h4

lemma ncols_pos {n : ℕ} (hn : 0 < n) : 0 < ncols n := by
  rw [ncols]
  split
  · exact Nat.sqrt_pos.mpr hn
  · exact Nat.succ_pos _

/-- For `n ≥ 1` the ceiling division `(n + c - 1) / c` is `(n - 1) / c + 1`. -/
lemma nrows_eq_pred_div {n : ℕ} (hn : 0 < n) :
    nrows n = (n - 1) / ncols n + 1 := by
  have hc := ncols_pos hn
  rw [nrows]
  have h1 : n + ncols n - 1 = (n - 1) + ncols n := by omega
  rw [h1, Nat.add_div_right _ hc]

lemma le_succ_pred_div_mul {n c : ℕ} (hn : 0 < n) (hc : 0 < c) :
    n ≤ ((n - 1) / c + 1) * c := by
  have h1 := Nat.div_add_mod (n - 1) c
  have h2 := Nat.mod_lt (n - 1) hc
  have h3 : ((n - 1) / c + 1) * c = c * ((n - 1) / c) + c := by ring
  rw [h3]
  generalize c * ((n - 1) / c) = m at h1 ⊢
  omega

lemma pred_div_mul_le {n c : ℕ} : c * ((n - 1) / c) ≤ n - 1 := by
  have h1 := Nat.div_mul_le_self (n - 1) c
  calc c * ((n - 1) / c) = (n - 1) / c * c := by ring
    _ ≤ n - 1 := h1

lemma nrows_eq_ceil_div {n : ℕ} (hn : 0 < n) :
    nrows n = ⌈(n : ℚ) / (ncols n : ℚ)⌉₊ := by
  have hc := ncols_pos hn
  have hcq : (0 : ℚ) < (ncols n : ℚ) := by exact_mod_cast hc
  rw [nrows_eq_pred_div hn]
  symm
  rw [Nat.ceil_eq_iff (Nat.succ_ne_zero _)]
  constructor
  · have hred : (n - 1) / ncols n + 1 - 1 = (n - 1) / ncols n := rfl
    rw [hred, lt_div_iff₀ hcq]
    have h1 : (n - 1) / ncols n * ncols n < n := by
      have := pred_div_mul_le (n := n) (c := ncols n)
      have h2 : (n - 1) / ncols n * ncols n = ncols n * ((n - 1) / ncols n) := by
        ring
      omega
    exact_mod_cast h1
  · rw [div_le_iff₀ hcq]
    have h1 : n ≤ ((n - 1) / ncols n + 1) * ncols n :=
      le_succ_pred_div_mul hn hc
    exact_mod_cast h1

lemma le_ncols_mul_nrows {n : ℕ} (hn : 0 < n) : n ≤ ncols n * nrows n := by
  have hc := ncols_pos hn
  rw [nrows_eq_pred_div hn]
  calc n ≤ ((n - 1) / ncols n + 1) * ncols n := le_succ_pred_div_mul hn hc
    _ = ncols n * ((n - 1) / ncols n + 1) := by ring

lemma ncols_mul_pred_nrows_lt {n : ℕ} (hn : 0 < n) :
    ncols n * (nrows n - 1) < n := by
  rw [nrows_eq_pred_div hn]
  simp only [Nat.add_sub_cancel]
  have h1 := pred_div_mul_le (n := n) (c := ncols n)
  omega

/-- **C1.** For every `total_items ≥ 1` and every `cell_size`, the grid of
`create_collage` satisfies `columns = ⌈√n⌉`, `rows = ⌈n / columns⌉`,
`canvas_width = columns * cell_size`, `canvas_height = rows * cell_size`,
and `columns * rows ≥ n > columns * (rows - 1)`. -/
theorem C1_grid_geometry (n cell : ℕ) (hn : 1 ≤ n) :
    ncols n = ⌈Real.sqrt n⌉₊ ∧
    nrows n = ⌈(n : ℚ) / (ncols n : ℚ)⌉₊ ∧
    collage_width n cell = ncols n * cell ∧
    collage_height n cell = nrows n * cell ∧
    n ≤ ncols n * nrows n ∧
    ncols n * (nrows n - 1) < n :=
  ⟨ncols_eq_ceil_real_sqrt n, nrows_eq_ceil_div hn, rfl, rfl,
    le_ncols_mul_nrows hn, ncols_mul_pred_nrows_lt hn⟩

/-- Witness for C1 at `total_items = 17`, `cell_size = 200`. -/
theorem C1_grid_geometry_witness :
    1 ≤ 17 ∧
    (ncols 17 = ⌈Real.sqrt 17⌉₊ ∧
      nrows 17 = ⌈(17 : ℚ) / (ncols 17 : ℚ)⌉₊ ∧
      collage_width 17 200 = ncols 17 * 200 ∧
      collage_height 17 200 = nrows 17 * 200 ∧
      17 ≤ ncols 17 * nrows 17 ∧
      ncols 17 * (nrows 17 - 1) < 17) :=
  ⟨by decide, C1_grid_geometry 17 200 (by decide)⟩

/-! ## Pixel-level model of the compositing loop (create.py lines 53-104)

The numpy memmap is modelled as a total function from (row, column) to an
RGBA pixel; slice assignment `collage_array[y0:y0+h, x0:x0+w, :] = data`
becomes the functional overwrite `writeRegion`.  LANCZOS resampling is
delegated to the PIL library, so the resized pixel data is an arbitrary
parameter `resample` of the model; no claim constrains its values. -/

/-- One 8-bit RGBA pixel (values are naturals; the code only ever stores
bytes, and no claim depends on the 0-255 bound). -/
structure RGBA where
  r : ℕ
  g : ℕ
  b : ℕ
  a : ℕ
  deriving DecidableEq

/-- Models the transparent-white background `(255, 255, 255, 0)` that both
the collage array (create.py lines 62-63) and each cell tile (lines 83-85)
are initialized to. -/
def background : RGBA := ⟨255, 255, 255, 0⟩

/-- A decoded source image: its size and its RGBA pixel data
(`img.convert("RGBA")`, create.py lines 70-71). -/
structure SrcImage where
  w : ℕ
  h : ℕ
  pix : ℕ → ℕ → RGBA

/-- One entry of the input path list: the path, and either the decoded
image or the message of the exception raised while opening / decoding /
resizing it (create.py lines 67-68 and 105). -/
structure ImageInput where
  path : String
  decoded : Except String SrcImage

/-- An abstract resampling filter: given the source image and the target
`(height, width)`, produces the resized pixel data (models
`img.resize((new_w, new_h), Image.LANCZOS)`, create.py line 79). -/
abbrev Resample := SrcImage → ℕ → ℕ → ℕ → ℕ → RGBA

/-- The collage raster, indexed `(row, column)` like the numpy array. -/
abbrev Canvas := ℕ → ℕ → RGBA

/-- Models numpy slice assignment
`arr[y0:y0+h, x0:x0+w, :] = data` (create.py lines 95 and 104): pixels
inside the rectangle take the new data, all others are untouched. -/
def writeRegion (c : Canvas) (x0 y0 w h : ℕ) (d : ℕ → ℕ → RGBA) : Canvas :=
  fun y x =>
    if y0 ≤ y ∧ y < y0 + h ∧ x0 ≤ x ∧ x < x0 + w then d (y - y0) (x - x0)
    else c y x

/-! ### Per-image placement arithmetic (create.py lines 74-101)

`scale_factor = cell_size / max(orig_w, orig_h)` is a Python float;
`int(orig_w * scale_factor)` truncates toward zero.  In exact (rational)
arithmetic this is `⌊w * cell / max w h⌋`, i.e. natural division. -/

/-- Models `new_w = int(orig_w * scale_factor)` (create.py line 75). -/
def new_w (cell w h : ℕ) : ℕ := w * cell / max w h

/-- Models `new_h = int(orig_h * scale_factor)` (create.py line 76). -/
def new_h (cell w h : ℕ) : ℕ := h * cell / max w h

/-- Models `paste_x = (cell_size - new_w) // 2` (create.py line 91). -/
def paste_x (cell w h : ℕ) : ℕ := (cell - new_w cell w h) / 2

/-- Models `paste_y = (cell_size - new_h) // 2` (create.py line 92). -/
def paste_y (cell w h : ℕ) : ℕ := (cell - new_h cell w h) / 2

/-- Models `pos_x = (idx % ncols) * cell_size` (create.py lines 99-100). -/
def pos_x (cols cell idx : ℕ) : ℕ := idx % cols * cell

/-- Models `pos_y = (idx // ncols) * cell_size` (create.py lines 98, 101). -/
def pos_y (cols cell idx : ℕ) : ℕ := idx / cols * cell

/-- The cell tile built for one decoded image (create.py lines 83-95):
a transparent-white `cell × cell` buffer with the resized image pasted at
`(paste_y, paste_x)`. -/
def cellTile (resample : Resample) (cell : ℕ) (src : SrcImage) :
    ℕ → ℕ → RGBA :=
  fun ty tx =>
    if paste_y cell src.w src.h ≤ ty ∧
       ty < paste_y cell src.w src.h + new_h cell src.w src.h ∧
       paste_x cell src.w src.h ≤ tx ∧
       tx < paste_x cell src.w src.h + new_w cell src.w src.h then
      resample src (new_h cell src.w src.h) (new_w cell src.w src.h)
        (ty - paste_y cell src.w src.h) (tx - paste_x cell src.w src.h)
    else background

/-- One line of the per-image error report
(`print(f"Error processing '{img_path}': {e}")`, create.py line 106). -/
structure LogEntry where
  path : String
  cause : String
  deriving DecidableEq

/-- Models the loop `for idx, img_path in enumerate(image_paths)`
(create.py lines 66-106): `k` is the value of `enumerate`'s counter for
the head of the remaining list.  A failed image writes nothing and appends
a log entry; a decoded image writes its cell tile at its grid position. -/
def runImagesAux (resample : Resample) (cols cell : ℕ) :
    ℕ → Canvas → List LogEntry → List ImageInput → Canvas × List LogEntry
  | _, c, logs, [] => (c, logs)
  | k, c, logs, img :: rest =>
    match img.decoded with
    | .error e =>
        runImagesAux resample cols cell (k + 1) c (logs ++ [⟨img.path, e⟩]) rest
    | .ok src =>
        runImagesAux resample cols cell (k + 1)
          (writeRegion c (pos_x cols cell k) (pos_y cols cell k) cell cell
            (cellTile resample cell src)) logs rest

/-- The collage array right after initialization (create.py lines 61-63):
transparent white everywhere. -/
def initCanvas : Canvas := fun _ _ => background

/-- The whole per-image loop, started on the freshly initialized canvas. -/
def runImages (resample : Resample) (cols cell : ℕ)
    (images : List ImageInput) : Canvas × List LogEntry :=
  runImagesAux resample cols cell 0 initCanvas [] images

/-- `create_collage` up to (but not including) encoding: `None` models the
early `return` on an empty input list (create.py lines 43-45), otherwise
the populated canvas and the error log. -/
def collageResult (resample : Resample) (images : List ImageInput)
    (cell : ℕ) : Option (Canvas × List LogEntry) :=
  if images.length = 0 then none
  else some (runImages resample (ncols images.length) cell images)

/-- Models `collage_image.convert("RGB")` (create.py line 130): PIL drops
the alpha channel of an RGBA image without compositing, keeping the RGB
bytes as they are. -/
def finalizeRGB (c : Canvas) : ℕ → ℕ → ℕ × ℕ × ℕ :=
  fun y x => ((c y x).r, (c y x).g, (c y x).b)

/-! ### C9: the region write is a last-write-wins overwrite -/

/-- **C9.** Writing pixel data `dA` and then `dB` to the same rectangle
leaves exactly `dB` there (no accumulation or blending), region pixels
hold the new data, and pixels outside the rectangle are unchanged. -/
theorem C9_region_overwrite (c : Canvas) (x0 y0 w h : ℕ)
    (dA dB : ℕ → ℕ → RGBA) :
    writeRegion (writeRegion c x0 y0 w h dA) x0 y0 w h dB =
      writeRegion c x0 y0 w h dB ∧
    (∀ y x, y0 ≤ y ∧ y < y0 + h ∧ x0 ≤ x ∧ x < x0 + w →
      writeRegion c x0 y0 w h dB y x = dB (y - y0) (x - x0)) ∧
    (∀ y x, ¬(y0 ≤ y ∧ y < y0 + h ∧ x0 ≤ x ∧ x < x0 + w) →
      writeRegion c x0 y0 w h dB y x = c y x) := by
  refine ⟨?_, ?_, ?_⟩
  · funext y x
    by_cases hin : y0 ≤ y ∧ y < y0 + h ∧ x0 ≤ x ∧ x < x0 + w
    · simp only [writeRegion, if_pos hin]
    · simp only [writeRegion, if_neg hin]
  · intro y x hin
    simp only [writeRegion, if_pos hin]
  · intro y x hin
    simp only [writeRegion, if_neg hin]

/-- Witness for C9: overwrite a 2×2 region at the origin twice and look at
pixel (1, 1) and at the outside pixel (5, 5). -/
theorem C9_region_overwrite_witness :
    writeRegion (writeRegion initCanvas 0 0 2 2 fun _ _ => ⟨1, 2, 3, 4⟩)
        0 0 2 2 (fun _ _ => ⟨9, 8, 7, 6⟩) =
      writeRegion initCanvas 0 0 2 2 (fun _ _ => ⟨9, 8, 7, 6⟩) ∧
    writeRegion initCanvas 0 0 2 2 (fun _ _ => ⟨9, 8, 7, 6⟩) 1 1 =
      ⟨9, 8, 7, 6⟩ ∧
    writeRegion initCanvas 0 0 2 2 (fun _ _ => ⟨9, 8, 7, 6⟩) 5 5 =
      initCanvas 5 5 :=
  ⟨(C9_region_overwrite initCanvas 0 0 2 2 (fun _ _ => ⟨1, 2, 3, 4⟩)
      (fun _ _ => ⟨9, 8, 7, 6⟩)).1,
    (C9_region_overwrite initCanvas 0 0 2 2 (fun _ _ => ⟨1, 2, 3, 4⟩)
      (fun _ _ => ⟨9, 8, 7, 6⟩)).2.1 1 1 (by decide),
    (C9_region_overwrite initCanvas 0 0 2 2 (fun _ _ => ⟨1, 2, 3, 4⟩)
      (fun _ _ => ⟨9, 8, 7, 6⟩)).2.2 5 5 (by decide)⟩

/-! ### C2: aspect-fit resize, centering, and grid position -/

lemma new_w_eq_floor (cell w h : ℕ) :
    new_w cell w h = ⌊(w : ℚ) * ((cell : ℚ) / ((max w h : ℕ) : ℚ))⌋₊ := by
  have h1 : (w : ℚ) * ((cell : ℚ) / ((max w h : ℕ) : ℚ)) =
      ((w * cell : ℕ) : ℚ) / ((max w h : ℕ) : ℚ) := by
    push_cast
    ring
  rw [new_w, h1, Nat.floor_div_eq_div]

lemma new_h_eq_floor (cell w h : ℕ) :
    new_h cell w h = ⌊(h : ℚ) * ((cell : ℚ) / ((max w h : ℕ) : ℚ))⌋₊ := by
  have h1 : (h : ℚ) * ((cell : ℚ) / ((max w h : ℕ) : ℚ)) =
      ((h * cell : ℕ) : ℚ) / ((max w h : ℕ) : ℚ) := by
    push_cast
    ring
  rw [new_h, h1, Nat.floor_div_eq_div]

lemma new_w_fill (cell w h : ℕ) (hw : 0 < w) (hwh : h ≤ w) :
    new_w cell w h = cell := by
  rw [new_w, max_eq_left hwh, mul_comm, Nat.mul_div_cancel _ hw]

lemma new_h_fill (cell w h : ℕ) (hh : 0 < h) (hwh : w ≤ h) :
    new_h cell w h = cell := by
  rw [new_h, max_eq_right hwh, mul_comm, Nat.mul_div_cancel _ hh]

lemma new_w_le (cell w h : ℕ) : new_w cell w h ≤ cell := by
  by_cases hm : max w h = 0
  · simp [new_w, hm]
  · have hmpos : 0 < max w h := Nat.pos_of_ne_zero hm
    rw [new_w]
    have h1 : w * cell ≤ max w h * cell :=
      Nat.mul_le_mul (le_max_left w h) (Nat.le_refl cell)
    calc w * cell / max w h ≤ max w h * cell / max w h := Nat.div_le_div_right h1
      _ = cell := by rw [mul_comm, Nat.mul_div_cancel _ hmpos]

lemma new_h_le (cell w h : ℕ) : new_h cell w h ≤ cell := by
  by_cases hm : max w h = 0
  · simp [new_h, hm]
  · have hmpos : 0 < max w h := Nat.pos_of_ne_zero hm
    rw [new_h]
    have h1 : h * cell ≤ max w h * cell :=
      Nat.mul_le_mul (le_max_right w h) (Nat.le_refl cell)
    calc h * cell / max w h ≤ max w h * cell / max w h := Nat.div_le_div_right h1
      _ = cell := by rw [mul_comm, Nat.mul_div_cancel _ hmpos]

lemma paste_x_eq_floor (cell w h : ℕ) :
    paste_x cell w h = ⌊((cell : ℚ) - (new_w cell w h : ℚ)) / 2⌋₊ := by
  have h1 : (cell : ℚ) - (new_w cell w h : ℚ) =
      ((cell - new_w cell w h : ℕ) : ℚ) := by
    rw [Nat.cast_sub (new_w_le cell w h)]
  rw [paste_x, h1, Nat.floor_div_ofNat, Nat.floor_natCast]

lemma paste_y_eq_floor (cell w h : ℕ) :
    paste_y cell w h = ⌊((cell : ℚ) - (new_h cell w h : ℚ)) / 2⌋₊ := by
  have h1 : (cell : ℚ) - (new_h cell w h : ℚ) =
      ((cell - new_h cell w h : ℕ) : ℚ) := by
    rw [Nat.cast_sub (new_h_le cell w h)]
  rw [paste_y, h1, Nat.floor_div_ofNat, Nat.floor_natCast]

/-- **C2.** For a source image of positive size `(w, h)` at index `idx`:
the resized dimensions are the floors of `w * (cell / max w h)` and
`h * (cell / max w h)` (so the longer side exactly equals `cell_size`),
the centering offsets are `⌊(cell - new_w) / 2⌋` and `⌊(cell - new_h) / 2⌋`,
and the loop writes the cell tile into the canvas at
`((idx % columns) * cell, (idx // columns) * cell)` in row-major order. -/
theorem C2_per_image_placement (cell w h idx cols : ℕ)
    (hw : 0 < w) (hh : 0 < h) :
    new_w cell w h = ⌊(w : ℚ) * ((cell : ℚ) / ((max w h : ℕ) : ℚ))⌋₊ ∧
    new_h cell w h = ⌊(h : ℚ) * ((cell : ℚ) / ((max w h : ℕ) : ℚ))⌋₊ ∧
    (h ≤ w → new_w cell w h = cell) ∧
    (w ≤ h → new_h cell w h = cell) ∧
    paste_x cell w h = ⌊((cell : ℚ) - (new_w cell w h : ℚ)) / 2⌋₊ ∧
    paste_y cell w h = ⌊((cell : ℚ) - (new_h cell w h : ℚ)) / 2⌋₊ ∧
    pos_x cols cell idx = idx % cols * cell ∧
    pos_y cols cell idx = idx / cols * cell ∧
    (∀ (resample : Resample) (c : Canvas) (logs : List LogEntry)
        (img : ImageInput) (src : SrcImage) (rest : List ImageInput),
      img.decoded = .ok src →
      runImagesAux resample cols cell idx c logs (img :: rest) =
        runImagesAux resample cols cell (idx + 1)
          (writeRegion c (pos_x cols cell idx) (pos_y cols cell idx) cell cell
            (cellTile resample cell src)) logs rest) := by
  refine ⟨new_w_eq_floor cell w h, new_h_eq_floor cell w h,
    new_w_fill cell w h hw, new_h_fill cell w h hh,
    paste_x_eq_floor cell w h, paste_y_eq_floor cell w h, rfl, rfl, ?_⟩
  intro resample c logs img src rest hdec
  simp only [runImagesAux, hdec]

/-- Witness for C2 at `cell_size = 200`, source size `(400, 100)`,
index 7, 4 columns. -/
theorem C2_per_image_placement_witness :
    0 < 400 ∧ 0 < 100 ∧
    (new_w 200 400 100 = ⌊(400 : ℚ) * ((200 : ℚ) / ((max 400 100 : ℕ) : ℚ))⌋₊ ∧
      new_h 200 400 100 = ⌊(100 : ℚ) * ((200 : ℚ) / ((max 400 100 : ℕ) : ℚ))⌋₊ ∧
      (100 ≤ 400 → new_w 200 400 100 = 200) ∧
      (400 ≤ 100 → new_h 200 400 100 = 200) ∧
      paste_x 200 400 100 = ⌊((200 : ℚ) - (new_w 200 400 100 : ℚ)) / 2⌋₊ ∧
      paste_y 200 400 100 = ⌊((200 : ℚ) - (new_h 200 400 100 : ℚ)) / 2⌋₊ ∧
      pos_x 4 200 7 = 7 % 4 * 200 ∧
      pos_y 4 200 7 = 7 / 4 * 200 ∧
      (∀ (resample : Resample) (c : Canvas) (logs : List LogEntry)
          (img : ImageInput) (src : SrcImage) (rest : List ImageInput),
        img.decoded = .ok src →
        runImagesAux resample 4 200 7 c logs (img :: rest) =
          runImagesAux resample 4 200 (7 + 1)
            (writeRegion c (pos_x 4 200 7) (pos_y 4 200 7) 200 200
              (cellTile resample 200 src)) logs rest)) :=
  ⟨by decide, by decide, C2_per_image_placement 200 400 100 7 4 (by decide) (by decide)⟩

/-! ### Pointwise characterization of the populated canvas

Each index `idx` owns the cell rectangle
`[pos_x idx, pos_x idx + cell) × [pos_y idx, pos_y idx + cell)`; for a
point `(y, x)` with `x < cols * cell` the unique index whose rectangle
contains it is `targetIdx`. -/

lemma mod_eq_sub_div_mul (y cell : ℕ) : y % cell = y - y / cell * cell := by
  have h1 := Nat.div_add_mod y cell
  have h2 : cell * (y / cell) = y / cell * cell := Nat.mul_comm _ _
  rw [h2] at h1
  omega

lemma lt_div_mul_add (y cell : ℕ) (hcell : 0 < cell) :
    y < y / cell * cell + cell := by
  have h1 := Nat.div_add_mod y cell
  have h2 := Nat.mod_lt y hcell
  have h3 : cell * (y / cell) = y / cell * cell := Nat.mul_comm _ _
  rw [h3] at h1
  omega

/-- The grid index whose cell contains the point `(y, x)`. -/
def targetIdx (cols cell y x : ℕ) : ℕ := y / cell * cols + x / cell

lemma targetIdx_div (cols cell y x : ℕ) (hcols : 0 < cols) (hcell : 0 < cell)
    (hx : x < cols * cell) : targetIdx cols cell y x / cols = y / cell := by
  have hxc : x / cell < cols := (Nat.div_lt_iff_lt_mul hcell).mpr hx
  rw [targetIdx, add_comm, Nat.add_mul_div_right _ _ hcols,
    Nat.div_eq_of_lt hxc, Nat.zero_add]

lemma targetIdx_mod (cols cell y x : ℕ) (hcell : 0 < cell)
    (hx : x < cols * cell) : targetIdx cols cell y x % cols = x / cell := by
  have hxc : x / cell < cols := (Nat.div_lt_iff_lt_mul hcell).mpr hx
  rw [targetIdx, add_comm, Nat.add_mul_mod_self_right, Nat.mod_eq_of_lt hxc]

lemma mem_cell_iff (cols cell idx y x : ℕ) (hcols : 0 < cols)
    (hcell : 0 < cell) (hx : x < cols * cell) :
    (pos_y cols cell idx ≤ y ∧ y < pos_y cols cell idx + cell ∧
      pos_x cols cell idx ≤ x ∧ x < pos_x cols cell idx + cell) ↔
    idx = targetIdx cols cell y x := by
  constructor
  · rintro ⟨hy1, hy2, hx1, hx2⟩
    have hyq : y / cell = idx / cols := by
      apply Nat.div_eq_of_lt_le
      · exact hy1
      · rw [Nat.succ_mul]
        exact hy2
    have hxq : x / cell = idx % cols := by
      apply Nat.div_eq_of_lt_le
      · exact hx1
      · rw [Nat.succ_mul]
        exact hx2
    rw [targetIdx, hyq, hxq]
    calc idx = cols * (idx / cols) + idx % cols := (Nat.div_add_mod idx cols).symm
      _ = idx / cols * cols + idx % cols := by ring
  · rintro rfl
    have hd := targetIdx_div cols cell y x hcols hcell hx
    have hm := targetIdx_mod cols cell y x hcell hx
    refine ⟨?_, ?_, ?_, ?_⟩
    · rw [pos_y, hd]
      exact Nat.div_mul_le_self y cell
    · rw [pos_y, hd]
      exact lt_div_mul_add y cell hcell
    · rw [pos_x, hm]
      exact Nat.div_mul_le_self x cell
    · rw [pos_x, hm]
      exact lt_div_mul_add x cell hcell

/-- The right edge of any cell rectangle stays within the canvas width. -/
lemma cell_right_edge_le (cols cell k : ℕ) (hcols : 0 < cols) :
    pos_x cols cell k + cell ≤ cols * cell := by
  rw [pos_x]
  have h6 : k % cols + 1 ≤ cols := Nat.mod_lt k hcols
  calc k % cols * cell + cell = (k % cols + 1) * cell := by ring
    _ ≤ cols * cell := Nat.mul_le_mul h6 (Nat.le_refl cell)

/-- The value the loop leaves at `(y, x)` inside the cell of the image
list entry `entry`, over base canvas `c`. -/
def cellValueAt (resample : Resample) (cell : ℕ) (c : Canvas)
    (entry : Option ImageInput) (y x : ℕ) : RGBA :=
  match entry with
  | some img =>
    match img.decoded with
    | .ok src => cellTile resample cell src (y % cell) (x % cell)
    | .error _ => c y x
  | none => c y x

/-- Master lemma: what the loop leaves at a point `(y, x)` of the canvas
(for `x` inside the canvas width) is determined by the single list entry
whose cell rectangle contains the point. -/
lemma runAux_canvas_eq (resample : Resample) (cols cell : ℕ)
    (hcols : 0 < cols) (hcell : 0 < cell) (y x : ℕ) (hx : x < cols * cell) :
    ∀ (images : List ImageInput) (k : ℕ) (c : Canvas) (logs : List LogEntry),
      (runImagesAux resample cols cell k c logs images).1 y x =
        if k ≤ targetIdx cols cell y x ∧
            targetIdx cols cell y x < k + images.length then
          cellValueAt resample cell c images[targetIdx cols cell y x - k]? y x
        else c y x := by
  intro images
  induction images with
  | nil =>
    intro k c logs
    simp only [runImagesAux, List.length_nil]
    rw [if_neg (by omega)]
  | cons img rest ih =>
    intro k c logs
    set t := targetIdx cols cell y x with ht
    cases hdec : img.decoded with
    | error e =>
      have hstep : runImagesAux resample cols cell k c logs (img :: rest) =
          runImagesAux resample cols cell (k + 1) c
            (logs ++ [⟨img.path, e⟩]) rest := by
        simp only [runImagesAux, hdec]
      rw [hstep, ih]
      simp only [List.length_cons]
      by_cases h1 : t = k
      · rw [if_neg (by omega), if_pos (by omega)]
        have h0 : t - k = 0 := by omega
        rw [h0, List.getElem?_cons_zero]
        simp only [cellValueAt, hdec]
      · by_cases h2 : k ≤ t ∧ t < k + (rest.length + 1)
        · rw [if_pos (by omega), if_pos (by omega)]
          have h4 : t - k = t - (k + 1) + 1 := by omega
          rw [h4, List.getElem?_cons_succ]
        · rw [if_neg (by omega), if_neg (by omega)]
    | ok src =>
      have hstep : runImagesAux resample cols cell k c logs (img :: rest) =
          runImagesAux resample cols cell (k + 1)
            (writeRegion c (pos_x cols cell k) (pos_y cols cell k) cell cell
              (cellTile resample cell src)) logs rest := by
        simp only [runImagesAux, hdec]
      rw [hstep, ih]
      simp only [List.length_cons]
      by_cases h1 : t = k
      · rw [if_neg (by omega), if_pos (by omega)]
        have hk : k = targetIdx cols cell y x := by
          rw [← ht]
          omega
        have hmem : pos_y cols cell k ≤ y ∧ y < pos_y cols cell k + cell ∧
            pos_x cols cell k ≤ x ∧ x < pos_x cols cell k + cell :=
          (mem_cell_iff cols cell k y x hcols hcell hx).mpr hk
        have h0 : t - k = 0 := by omega
        rw [h0, List.getElem?_cons_zero]
        simp only [writeRegion, if_pos hmem, cellValueAt, hdec]
        have hyd : k / cols = y / cell := by
          rw [hk]
          exact targetIdx_div cols cell y x hcols hcell hx
        have hxd : k % cols = x / cell := by
          rw [hk]
          exact targetIdx_mod cols cell y x hcell hx
        have hsy : y - pos_y cols cell k = y % cell := by
          rw [pos_y, hyd, ← mod_eq_sub_div_mul]
        have hsx : x - pos_x cols cell k = x % cell := by
          rw [pos_x, hxd, ← mod_eq_sub_div_mul]
        rw [hsy, hsx]
      · have hknot : ¬ k = targetIdx cols cell y x := by
          rw [← ht]
          omega
        have hnot : ¬(pos_y cols cell k ≤ y ∧ y < pos_y cols cell k + cell ∧
            pos_x cols cell k ≤ x ∧ x < pos_x cols cell k + cell) := fun hmem =>
          hknot ((mem_cell_iff cols cell k y x hcols hcell hx).mp hmem)
        have hc2 : writeRegion c (pos_x cols cell k) (pos_y cols cell k) cell
            cell (cellTile resample cell src) y x = c y x := by
          simp only [writeRegion, if_neg hnot]
        by_cases h2 : k ≤ t ∧ t < k + (rest.length + 1)
        · rw [if_pos (by omega), if_pos (by omega)]
          have h4 : t - k = t - (k + 1) + 1 := by omega
          rw [h4, List.getElem?_cons_succ]
          cases hentry : rest[t - (k + 1)]? with
          | none =>
            simp only [cellValueAt]
            exact hc2
          | some img2 =>
            cases hdec2 : img2.decoded with
            | ok src2 => simp only [cellValueAt, hdec2]
            | error e2 =>
              simp only [cellValueAt, hdec2]
              exact hc2
        · rw [if_neg (by omega), if_neg (by omega)]
          exact hc2

/-- Points at or beyond the canvas width are never written. -/
lemma runAux_out_of_width (resample : Resample) (cols cell : ℕ)
    (hcols : 0 < cols) (y x : ℕ) (hx : cols * cell ≤ x) :
    ∀ (images : List ImageInput) (k : ℕ) (c : Canvas) (logs : List LogEntry),
      (runImagesAux resample cols cell k c logs images).1 y x = c y x := by
  intro images
  induction images with
  | nil =>
    intro k c logs
    simp only [runImagesAux]
  | cons img rest ih =>
    intro k c logs
    cases hdec : img.decoded with
    | error e =>
      simp only [runImagesAux, hdec]
      exact ih _ _ _
    | ok src =>
      simp only [runImagesAux, hdec]
      rw [ih]
      have hnot : ¬(pos_y cols cell k ≤ y ∧ y < pos_y cols cell k + cell ∧
          pos_x cols cell k ≤ x ∧ x < pos_x cols cell k + cell) := by
        rintro ⟨-, -, -, h4⟩
        have h5 := cell_right_edge_le cols cell k hcols
        omega
      simp only [writeRegion, if_neg hnot]

/-- The log entries produced by the loop, in order: one per failed image
(create.py line 106). -/
def failureLog (images : List ImageInput) : List LogEntry :=
  images.filterMap fun img =>
    match img.decoded with
    | .error e => some ⟨img.path, e⟩
    | .ok _ => none

lemma runAux_logs (resample : Resample) (cols cell : ℕ) :
    ∀ (images : List ImageInput) (k : ℕ) (c : Canvas) (logs : List LogEntry),
      (runImagesAux resample cols cell k c logs images).2 =
        logs ++ failureLog images := by
  intro images
  induction images with
  | nil =>
    intro k c logs
    simp [runImagesAux, failureLog]
  | cons img rest ih =>
    intro k c logs
    cases hdec : img.decoded with
    | error e =>
      simp only [runImagesAux, hdec]
      rw [ih]
      simp [failureLog, List.filterMap_cons, hdec]
    | ok src =>
      simp only [runImagesAux, hdec]
      rw [ih]
      simp [failureLog, List.filterMap_cons, hdec]

/-- The canvas value inside the cell rectangle of index `j`. -/
lemma canvas_in_cell (resample : Resample) (images : List ImageInput)
    (cell j y x : ℕ) (hcell : 0 < cell) (hj : j < images.length)
    (hmem : pos_y (ncols images.length) cell j ≤ y ∧
      y < pos_y (ncols images.length) cell j + cell ∧
      pos_x (ncols images.length) cell j ≤ x ∧
      x < pos_x (ncols images.length) cell j + cell) :
    (runImages resample (ncols images.length) cell images).1 y x =
      cellValueAt resample cell initCanvas images[j]? y x := by
  have hn : 0 < images.length := Nat.lt_of_le_of_lt (Nat.zero_le j) hj
  have hcols := ncols_pos hn
  have hxlt : x < ncols images.length * cell := by
    obtain ⟨-, -, -, h4⟩ := hmem
    exact Nat.lt_of_lt_of_le h4
      (cell_right_edge_le (ncols images.length) cell j hcols)
  have hj_eq : j = targetIdx (ncols images.length) cell y x :=
    (mem_cell_iff (ncols images.length) cell j y x hcols hcell hxlt).mp hmem
  rw [runImages,
    runAux_canvas_eq resample (ncols images.length) cell hcols hcell y x hxlt
      images 0 initCanvas []]
  rw [if_pos ⟨Nat.zero_le _, by rw [Nat.zero_add, ← hj_eq]; exact hj⟩]
  rw [Nat.sub_zero, ← hj_eq]

lemma lt_length_of_getElem? {α : Type} {l : List α} {i : ℕ} {a : α}
    (h : l[i]? = some a) : i < l.length := by
  by_contra hcon
  push_neg at hcon
  rw [List.getElem?_eq_none hcon] at h
  exact Option.noConfusion h

lemma mem_of_getElem? {α : Type} {l : List α} {i : ℕ} {a : α}
    (h : l[i]? = some a) : a ∈ l := by
  induction l generalizing i with
  | nil => exact Option.noConfusion ((List.getElem?_nil (n := i)) ▸ h)
  | cons b bs ih =>
    cases i with
    | zero =>
      rw [List.getElem?_cons_zero] at h
      rw [← Option.some.inj h]
      exact List.mem_cons_self b bs
    | succ n =>
      rw [List.getElem?_cons_succ] at h
      exact List.mem_cons_of_mem _ (ih h)

/-! ### C4: per-image failures are isolated -/

/-- **C4.** If the image at index `i` fails to decode/resize, the failure
is logged with the offending path and cause (and the log is exactly the
ordered list of all failures, so processing continued past each one), the
cell of index `i` is left as the transparent background, every cell of a
successfully decoded image holds exactly its own tile, and the run still
produces a canvas (no abort). -/
theorem C4_failure_isolation (resample : Resample)
    (images : List ImageInput) (cell : ℕ) (i : ℕ) (img : ImageInput)
    (e : String) (hcell : 0 < cell) (hi : images[i]? = some img)
    (hfail : img.decoded = .error e) :
    ∃ canv logs, collageResult resample images cell = some (canv, logs) ∧
      (⟨img.path, e⟩ : LogEntry) ∈ logs ∧
      logs = failureLog images ∧
      (∀ y x,
        pos_y (ncols images.length) cell i ≤ y ∧
        y < pos_y (ncols images.length) cell i + cell ∧
        pos_x (ncols images.length) cell i ≤ x ∧
        x < pos_x (ncols images.length) cell i + cell →
        canv y x = background) ∧
      (∀ j imgJ srcJ y x, images[j]? = some imgJ → imgJ.decoded = .ok srcJ →
        (pos_y (ncols images.length) cell j ≤ y ∧
          y < pos_y (ncols images.length) cell j + cell ∧
          pos_x (ncols images.length) cell j ≤ x ∧
          x < pos_x (ncols images.length) cell j + cell) →
        canv y x = cellTile resample cell srcJ (y % cell) (x % cell)) ∧
      (∀ j imgJ eJ y x, images[j]? = some imgJ →
        imgJ.decoded = .error eJ →
        (pos_y (ncols images.length) cell j ≤ y ∧
          y < pos_y (ncols images.length) cell j + cell ∧
          pos_x (ncols images.length) cell j ≤ x ∧
          x < pos_x (ncols images.length) cell j + cell) →
        canv y x = background) := by
  have hlen : i < images.length := lt_length_of_getElem? hi
  have hlogs : (runImages resample (ncols images.length) cell images).2 =
      failureLog images := by
    rw [runImages, runAux_logs]
    exact List.nil_append _
  refine ⟨(runImages resample (ncols images.length) cell images).1,
    (runImages resample (ncols images.length) cell images).2,
    ?_, ?_, hlogs, ?_, ?_, ?_⟩
  · rw [collageResult, if_neg (by omega)]
  · rw [hlogs, failureLog]
    refine List.mem_filterMap.mpr ⟨img, mem_of_getElem? hi, ?_⟩
    simp only [hfail]
  · intro y x hmem
    rw [canvas_in_cell resample images cell i y x hcell hlen hmem, hi]
    simp only [cellValueAt, hfail, initCanvas]
  · intro j imgJ srcJ y x hj hdecJ hmem
    have hjlen : j < images.length := lt_length_of_getElem? hj
    rw [canvas_in_cell resample images cell j y x hcell hjlen hmem, hj]
    simp only [cellValueAt, hdecJ]
  · intro j imgJ eJ y x hj hdecJ hmem
    have hjlen : j < images.length := lt_length_of_getElem? hj
    rw [canvas_in_cell resample images cell j y x hcell hjlen hmem, hj]
    simp only [cellValueAt, hdecJ, initCanvas]

/-- Concrete fixture: five inputs whose third (index 2) is corrupt. -/
def sampleImages : List ImageInput :=
  [⟨"gallery/a/one.jpg", .ok ⟨4, 4, fun _ _ => ⟨1, 1, 1, 255⟩⟩⟩,
   ⟨"gallery/a/two.jpg", .ok ⟨4, 2, fun _ _ => ⟨2, 2, 2, 255⟩⟩⟩,
   ⟨"gallery/a/three.jpg", .error "corrupt header"⟩,
   ⟨"gallery/b/four.jpg", .ok ⟨2, 4, fun _ _ => ⟨4, 4, 4, 255⟩⟩⟩,
   ⟨"gallery/b/five.jpg", .ok ⟨4, 4, fun _ _ => ⟨5, 5, 5, 255⟩⟩⟩]

/-- Concrete constant resampling filter for witnesses. -/
def sampleResample : Resample := fun _ _ _ _ _ => ⟨0, 0, 0, 255⟩

/-- Witness for C4: five images, the third corrupt, `cell_size = 4`. -/
theorem C4_failure_isolation_witness :
    ∃ canv logs,
      collageResult sampleResample sampleImages 4 = some (canv, logs) ∧
      (⟨"gallery/a/three.jpg", "corrupt header"⟩ : LogEntry) ∈ logs ∧
      logs = failureLog sampleImages ∧
      (∀ y x,
        pos_y (ncols sampleImages.length) 4 2 ≤ y ∧
        y < pos_y (ncols sampleImages.length) 4 2 + 4 ∧
        pos_x (ncols sampleImages.length) 4 2 ≤ x ∧
        x < pos_x (ncols sampleImages.length) 4 2 + 4 →
        canv y x = background) ∧
      (∀ j imgJ srcJ y x, sampleImages[j]? = some imgJ →
        imgJ.decoded = .ok srcJ →
        (pos_y (ncols sampleImages.length) 4 j ≤ y ∧
          y < pos_y (ncols sampleImages.length) 4 j + 4 ∧
          pos_x (ncols sampleImages.length) 4 j ≤ x ∧
          x < pos_x (ncols sampleImages.length) 4 j + 4) →
        canv y x = cellTile sampleResample 4 srcJ (y % 4) (x % 4)) ∧
      (∀ j imgJ eJ y x, sampleImages[j]? = some imgJ →
        imgJ.decoded = .error eJ →
        (pos_y (ncols sampleImages.length) 4 j ≤ y ∧
          y < pos_y (ncols sampleImages.length) 4 j + 4 ∧
          pos_x (ncols sampleImages.length) 4 j ≤ x ∧
          x < pos_x (ncols sampleImages.length) 4 j + 4) →
        canv y x = background) :=
  C4_failure_isolation sampleResample sampleImages 4 2
    ⟨"gallery/a/three.jpg", .error "corrupt header"⟩ "corrupt header"
    (by decide) rfl rfl

/-! ### C10: everything not covered by a placed image is pure white -/

/-- Whether the point `(y, x)` lies inside the pasted (resized) area of
some successfully decoded image of the list, starting at enumerate
counter `k`. -/
def coveredAux (cols cell : ℕ) : ℕ → List ImageInput → ℕ → ℕ → Bool
  | _, [], _, _ => false
  | j, img :: rest, y, x =>
    (match img.decoded with
     | .ok src =>
        decide (pos_y cols cell j + paste_y cell src.w src.h ≤ y ∧
          y < pos_y cols cell j + paste_y cell src.w src.h +
            new_h cell src.w src.h ∧
          pos_x cols cell j + paste_x cell src.w src.h ≤ x ∧
          x < pos_x cols cell j + paste_x cell src.w src.h +
            new_w cell src.w src.h)
     | .error _ => false) || coveredAux cols cell (j + 1) rest y x

/-- Whether `(y, x)` is covered by some successfully placed resized image
of the run. -/
def covered (images : List ImageInput) (cell y x : ℕ) : Bool :=
  coveredAux (ncols images.length) cell 0 images y x

lemma coveredAux_of_mem (cols cell : ℕ) :
    ∀ (images : List ImageInput) (k j : ℕ) (img : ImageInput)
      (src : SrcImage) (y x : ℕ),
      k ≤ j → images[j - k]? = some img → img.decoded = .ok src →
      (pos_y cols cell j + paste_y cell src.w src.h ≤ y ∧
        y < pos_y cols cell j + paste_y cell src.w src.h +
          new_h cell src.w src.h ∧
        pos_x cols cell j + paste_x cell src.w src.h ≤ x ∧
        x < pos_x cols cell j + paste_x cell src.w src.h +
          new_w cell src.w src.h) →
      coveredAux cols cell k images y x = true := by
  intro images
  induction images with
  | nil =>
    intro k j img src y x hk hj
    exact fun _ _ => Option.noConfusion ((List.getElem?_nil (n := j - k)) ▸ hj)
  | cons img0 rest ih =>
    intro k j img src y x hk hj hdec hmem
    simp only [coveredAux, Bool.or_eq_true]
    by_cases hjk : j = k
    · left
      subst hjk
      rw [Nat.sub_self, List.getElem?_cons_zero] at hj
      rw [← Option.some.inj hj] at hdec
      simp only [hdec]
      exact decide_eq_true hmem
    · right
      have hk1 : k + 1 ≤ j := by omega
      have hj2 : rest[j - (k + 1)]? = some img := by
        have h4 : j - k = j - (k + 1) + 1 := by omega
        rw [h4, List.getElem?_cons_succ] at hj
        exact hj
      exact ih (k + 1) j img src y x hk1 hj2 hdec hmem

/-- **C10.** The canvas is initialized to transparent white, a cell tile
is transparent white outside the pasted area, finalization drops the
alpha channel without compositing, and therefore every pixel not covered
by a successfully placed resized image is `(255, 255, 255)` in the final
3-channel output. -/
theorem C10_uncovered_background_white (resample : Resample)
    (images : List ImageInput) (cell y x : ℕ) (hcell : 0 < cell)
    (hn : 0 < images.length) (hcov : covered images cell y x = false) :
    initCanvas y x = ⟨255, 255, 255, 0⟩ ∧
    (∀ (src : SrcImage) (ty tx : ℕ),
      ¬(paste_y cell src.w src.h ≤ ty ∧
        ty < paste_y cell src.w src.h + new_h cell src.w src.h ∧
        paste_x cell src.w src.h ≤ tx ∧
        tx < paste_x cell src.w src.h + new_w cell src.w src.h) →
      cellTile resample cell src ty tx = ⟨255, 255, 255, 0⟩) ∧
    (∀ c : Canvas, finalizeRGB c y x = ((c y x).r, (c y x).g, (c y x).b)) ∧
    finalizeRGB (runImages resample (ncols images.length) cell images).1 y x =
      (255, 255, 255) := by
  have hcols := ncols_pos hn
  refine ⟨rfl, ?_, fun c => rfl, ?_⟩
  · intro src ty tx hout
    simp only [cellTile, if_neg hout]
    rfl
  · rcases Nat.lt_or_ge x (ncols images.length * cell) with hx | hx
    · simp only [finalizeRGB, runImages]
      rw [runAux_canvas_eq resample (ncols images.length) cell hcols hcell
        y x hx images 0 initCanvas []]
      by_cases hin : 0 ≤ targetIdx (ncols images.length) cell y x ∧
          targetIdx (ncols images.length) cell y x < 0 + images.length
      · rw [if_pos hin]
        cases hentry : images[targetIdx (ncols images.length) cell y x - 0]? with
        | none =>
          simp only [cellValueAt]
          rfl
        | some img =>
          cases hdec : img.decoded with
          | error e =>
            simp only [cellValueAt, hdec]
            rfl
          | ok src =>
            simp only [cellValueAt, hdec]
            have hyd : targetIdx (ncols images.length) cell y x /
                ncols images.length = y / cell :=
              targetIdx_div (ncols images.length) cell y x hcols hcell hx
            have hxd : targetIdx (ncols images.length) cell y x %
                ncols images.length = x / cell :=
              targetIdx_mod (ncols images.length) cell y x hcell hx
            have hposy : pos_y (ncols images.length) cell
                (targetIdx (ncols images.length) cell y x) =
                y / cell * cell := by
              rw [pos_y, hyd]
            have hposx : pos_x (ncols images.length) cell
                (targetIdx (ncols images.length) cell y x) =
                x / cell * cell := by
              rw [pos_x, hxd]
            have heqy : y / cell * cell + y % cell = y := by
              have h1 := Nat.div_add_mod y cell
              have h2 : cell * (y / cell) = y / cell * cell :=
                Nat.mul_comm _ _
              rw [h2] at h1
              exact h1
            have heqx : x / cell * cell + x % cell = x := by
              have h1 := Nat.div_add_mod x cell
              have h2 : cell * (x / cell) = x / cell * cell :=
                Nat.mul_comm _ _
              rw [h2] at h1
              exact h1
            have hpaste : ¬(paste_y cell src.w src.h ≤ y % cell ∧
                y % cell < paste_y cell src.w src.h +
                  new_h cell src.w src.h ∧
                paste_x cell src.w src.h ≤ x % cell ∧
                x % cell < paste_x cell src.w src.h +
                  new_w cell src.w src.h) := by
              rintro ⟨p1, p2, p3, p4⟩
              have hcovAux : coveredAux (ncols images.length) cell 0 images
                  y x = true :=
                coveredAux_of_mem (ncols images.length) cell images 0
                  (targetIdx (ncols images.length) cell y x) img src y x
                  (Nat.zero_le _) hentry hdec
                  ⟨by rw [hposy]; omega, by rw [hposy]; omega,
                    by rw [hposx]; omega, by rw [hposx]; omega⟩
              rw [covered] at hcov
              rw [hcov] at hcovAux
              exact Bool.noConfusion hcovAux
            simp only [cellTile, if_neg hpaste]
            rfl
      · rw [if_neg hin]
        rfl
    · simp only [finalizeRGB, runImages]
      rw [runAux_out_of_width resample (ncols images.length) cell hcols y x hx
        images 0 initCanvas []]
      rfl

/-- Concrete fixture for the C10 witness: a single 1×1 image. -/
def tinyImages : List ImageInput :=
  [⟨"pics/w/dot.jpg", .ok ⟨1, 1, fun _ _ => ⟨7, 7, 7, 255⟩⟩⟩]

/-- Witness for C10 at `cell_size = 2` and the uncovered point
`(y, x) = (0, 5)` (beyond the single-column canvas width). -/
theorem C10_uncovered_background_white_witness :
    0 < 2 ∧ 0 < tinyImages.length ∧ covered tinyImages 2 0 5 = false ∧
    (initCanvas 0 5 = ⟨255, 255, 255, 0⟩ ∧
      (∀ (src : SrcImage) (ty tx : ℕ),
        ¬(paste_y 2 src.w src.h ≤ ty ∧
          ty < paste_y 2 src.w src.h + new_h 2 src.w src.h ∧
          paste_x 2 src.w src.h ≤ tx ∧
          tx < paste_x 2 src.w src.h + new_w 2 src.w src.h) →
        cellTile sampleResample 2 src ty tx = ⟨255, 255, 255, 0⟩) ∧
      (∀ c : Canvas, finalizeRGB c 0 5 = ((c 0 5).r, (c 0 5).g, (c 0 5).b)) ∧
      finalizeRGB (runImages sampleResample (ncols tinyImages.length) 2
        tinyImages).1 0 5 = (255, 255, 255)) :=
  ⟨by decide, by decide, rfl,
    C10_uncovered_background_white sampleResample tinyImages 2 0 5
      (by decide) (by decide) rfl⟩

/-! ## Control-flow / resource-lifetime model (create.py lines 42-134, 136-179)

The observable actions of `create_collage` and `main`, in program order.
`raiseConfigError` is never emitted by the model: `create.py` defines no
`ConfigError` and performs no `cell_size` validation anywhere; the
constructor exists so that statements about the spec's error taxonomy can
be expressed.  `cell_size` is carried as an integer because `argparse`
accepts any `int`, including non-positive ones. -/

inductive Event where
  | printCountsHeader
  | printFolderCount (folder : String) (count : ℕ)
  | printTotal (n : ℕ)
  | printNoImagesMain
  | printNoImages
  | createTemp
  | allocCanvas (width height : ℤ)
  | writeCell (idx : ℕ)
  | logError (path : String)
  | flushCanvas
  | finalizeZeroCopy
  | finalizeFallback
  | saveOutput (path : String)
  | printSaved (path : String)
  | removeTemp
  | raiseConfigError
  deriving DecidableEq

/-- The events of the per-image loop (create.py lines 66-106): one
`writeCell` per decoded image, one `logError` per caught failure. -/
def loopEvents : ℕ → List ImageInput → List Event
  | _, [] => []
  | k, img :: rest =>
    (match img.decoded with
     | .ok _ => Event.writeCell k
     | .error _ => Event.logError img.path) :: loopEvents (k + 1) rest

/-- The event trace of `create_collage` (create.py lines 42-134).
`zeroCopyOk` selects the `Image.frombuffer` path or the caught-exception
fallback (lines 114-127); `encodeOk` is whether `save` succeeds (line
130).  When `save` raises, the exception propagates out of the function,
so neither `print` (line 131) nor `os.remove` (line 134) runs.  (If the
fallback of line 127 itself raised, removal would equally be skipped;
the `encodeOk = false` trace already exhibits such an exit path.) -/
def createCollageTrace (images : List ImageInput) (cell : ℤ)
    (outPath : String) (zeroCopyOk encodeOk : Bool) : List Event :=
  if images.length = 0 then [Event.printNoImages]
  else
    [Event.createTemp,
     Event.allocCanvas ((ncols images.length : ℤ) * cell)
       ((nrows images.length : ℤ) * cell)] ++
    loopEvents 0 images ++ [Event.flushCanvas] ++
    (if zeroCopyOk then [Event.finalizeZeroCopy]
     else [Event.finalizeFallback]) ++
    (if encodeOk then
      [Event.saveOutput outPath, Event.printSaved outPath, Event.removeTemp]
     else [])

/-- The event trace of `main` (create.py lines 153-179): per-folder count
report, total, then either the zero-image early return (line 174-176) or
the call to `create_collage`.  `main`'s `total_count` equals the length of
the discovered path list because both apply the same per-folder filter;
the per-folder counts are passed in as `folders`. -/
def mainTrace (folders : List (String × ℕ)) (images : List ImageInput)
    (cell : ℤ) (outPath : String) (zeroCopyOk encodeOk : Bool) :
    List Event :=
  [Event.printCountsHeader] ++
  (folders.map fun p => Event.printFolderCount p.1 p.2) ++
  [Event.printTotal images.length] ++
  (if images.length = 0 then [Event.printNoImagesMain]
   else createCollageTrace images cell outPath zeroCopyOk encodeOk)

lemma removeTemp_not_mem_loopEvents :
    ∀ (images : List ImageInput) (k : ℕ),
      Event.removeTemp ∉ loopEvents k images := by
  intro images
  induction images with
  | nil =>
    intro k h
    simp [loopEvents] at h
  | cons img rest ih =>
    intro k h
    cases hdec : img.decoded with
    | ok src =>
      simp only [loopEvents, hdec, List.mem_cons] at h
      rcases h with h | h
      · exact Event.noConfusion h
      · exact ih (k + 1) h
    | error e =>
      simp only [loopEvents, hdec, List.mem_cons] at h
      rcases h with h | h
      · exact Event.noConfusion h
      · exact ih (k + 1) h

lemma configError_not_mem_loopEvents :
    ∀ (images : List ImageInput) (k : ℕ),
      Event.raiseConfigError ∉ loopEvents k images := by
  intro images
  induction images with
  | nil =>
    intro k h
    simp [loopEvents] at h
  | cons img rest ih =>
    intro k h
    cases hdec : img.decoded with
    | ok src =>
      simp only [loopEvents, hdec, List.mem_cons] at h
      rcases h with h | h
      · exact Event.noConfusion h
      · exact ih (k + 1) h
    | error e =>
      simp only [loopEvents, hdec, List.mem_cons] at h
      rcases h with h | h
      · exact Event.noConfusion h
      · exact ih (k + 1) h

/-! ### C5: temp-file lifetime -/

/-- **C5 (amended).** The temporary backing file is created before any
cell write begins — it is the very first action of `create_collage` on a
non-empty input — but it is deleted only on the successful-encode exit
path: `removeTemp` appears in the trace exactly when `save` succeeds. -/
theorem C5_temp_file_lifecycle (images : List ImageInput) (cell : ℤ)
    (outPath : String) (zeroCopyOk encodeOk : Bool)
    (hne : images.length ≠ 0) :
    (createCollageTrace images cell outPath zeroCopyOk encodeOk).head? =
      some Event.createTemp ∧
    (Event.removeTemp ∈
        createCollageTrace images cell outPath zeroCopyOk encodeOk ↔
      encodeOk = true) := by
  constructor
  · rw [createCollageTrace, if_neg hne]
    rfl
  · rw [createCollageTrace, if_neg hne]
    have h1 := removeTemp_not_mem_loopEvents images 0
    cases zeroCopyOk <;> cases encodeOk <;>
      simp [List.mem_append, h1]

/-- **C5 counterexample.** On the exit path where the final encode fails
(`encodeOk = false`), the temp file is never removed: the claim that it is
deleted on every exit path fails at this concrete input. -/
theorem C5_counterexample :
    Event.removeTemp ∉ createCollageTrace tinyImages 200 "out.webp"
      true false := by
  decide

/-- Witness for C5 on the concrete one-image input with failing encode. -/
theorem C5_temp_file_lifecycle_witness :
    tinyImages.length ≠ 0 ∧
    ((createCollageTrace tinyImages 200 "out.webp" true false).head? =
        some Event.createTemp ∧
      (Event.removeTemp ∈
          createCollageTrace tinyImages 200 "out.webp" true false ↔
        false = true)) :=
  ⟨by decide,
    C5_temp_file_lifecycle tinyImages 200 "out.webp" true false (by decide)⟩

/-! ### C6: there is no cell_size validation and no ConfigError -/

/-- **C6 (amended).** The program performs no `cell_size` validation at
all: for every `cell_size` — non-positive included — no `ConfigError` is
raised and the run proceeds into `create_collage`, creating the temp file
(processing begins). -/
theorem C6_no_cell_size_validation (folders : List (String × ℕ))
    (images : List ImageInput) (cell : ℤ) (outPath : String)
    (zeroCopyOk encodeOk : Bool) (hne : images.length ≠ 0) :
    Event.raiseConfigError ∉
      mainTrace folders images cell outPath zeroCopyOk encodeOk ∧
    Event.createTemp ∈
      mainTrace folders images cell outPath zeroCopyOk encodeOk := by
  have h1 := configError_not_mem_loopEvents images 0
  constructor
  · rw [mainTrace, if_neg hne, createCollageTrace, if_neg hne]
    cases zeroCopyOk <;> cases encodeOk <;>
      simp [List.mem_append, List.mem_map, h1]
  · rw [mainTrace, if_neg hne, createCollageTrace, if_neg hne]
    simp [List.mem_append]

/-- **C6 counterexample.** With the non-positive `cell_size = -5` the run
raises no `ConfigError` and still enters processing (the temp file is
created): the claim that it fails with `ConfigError` before any
processing is false at this concrete input. -/
theorem C6_counterexample :
    (-5 : ℤ) ≤ 0 ∧
    Event.raiseConfigError ∉
      mainTrace [("gallery/a", 1)] tinyImages (-5) "out.webp" true true ∧
    Event.createTemp ∈
      mainTrace [("gallery/a", 1)] tinyImages (-5) "out.webp" true true :=
  ⟨by decide, by decide, by decide⟩

/-- Witness for C6 at the concrete `cell_size = -7`. -/
theorem C6_no_cell_size_validation_witness :
    tinyImages.length ≠ 0 ∧
    (Event.raiseConfigError ∉
        mainTrace [("gallery/a", 1)] tinyImages (-7) "out.webp" false false ∧
      Event.createTemp ∈
        mainTrace [("gallery/a", 1)] tinyImages (-7) "out.webp" false false) :=
  ⟨by decide,
    C6_no_cell_size_validation [("gallery/a", 1)] tinyImages (-7) "out.webp"
      false false (by decide)⟩

/-! ### C7: the zero-image run is a non-failing no-op -/

/-- **C7.** With an empty Placement Sequence the run only reports counts
and the "no images" diagnostic: no temp file, no canvas allocation, no
output write, and no error of any kind; `create_collage` itself would
likewise only print its diagnostic and return. -/
theorem C7_zero_images_noop (folders : List (String × ℕ)) (cell : ℤ)
    (outPath : String) (zeroCopyOk encodeOk : Bool) :
    mainTrace folders [] cell outPath zeroCopyOk encodeOk =
      [Event.printCountsHeader] ++
        (folders.map fun p => Event.printFolderCount p.1 p.2) ++
        [Event.printTotal 0, Event.printNoImagesMain] ∧
    createCollageTrace [] cell outPath zeroCopyOk encodeOk =
      [Event.printNoImages] ∧
    Event.createTemp ∉ mainTrace folders [] cell outPath zeroCopyOk encodeOk ∧
    (∀ w h, Event.allocCanvas w h ∉
      mainTrace folders [] cell outPath zeroCopyOk encodeOk) ∧
    (∀ p, Event.saveOutput p ∉
      mainTrace folders [] cell outPath zeroCopyOk encodeOk) ∧
    Event.raiseConfigError ∉
      mainTrace folders [] cell outPath zeroCopyOk encodeOk := by
  refine ⟨?_, ?_, ?_, ?_, ?_, ?_⟩
  · simp [mainTrace]
  · simp [createCollageTrace]
  · simp [mainTrace, List.mem_append, List.mem_map]
  · intro w h
    simp [mainTrace, List.mem_append, List.mem_map]
  · intro p
    simp [mainTrace, List.mem_append, List.mem_map]
  · simp [mainTrace, List.mem_append, List.mem_map]

/-- Witness for C7 on a concrete folder report. -/
theorem C7_zero_images_noop_witness :
    mainTrace [("gallery/a", 0)] [] 200 "out.webp" true true =
      [Event.printCountsHeader] ++
        ([("gallery/a", 0)].map fun p => Event.printFolderCount p.1 p.2) ++
        [Event.printTotal 0, Event.printNoImagesMain] ∧
    createCollageTrace [] 200 "out.webp" true true =
      [Event.printNoImages] ∧
    Event.createTemp ∉ mainTrace [("gallery/a", 0)] [] 200 "out.webp" true true ∧
    (∀ w h, Event.allocCanvas w h ∉
      mainTrace [("gallery/a", 0)] [] 200 "out.webp" true true) ∧
    (∀ p, Event.saveOutput p ∉
      mainTrace [("gallery/a", 0)] [] 200 "out.webp" true true) ∧
    Event.raiseConfigError ∉
      mainTrace [("gallery/a", 0)] [] 200 "out.webp" true true :=
  C7_zero_images_noop [("gallery/a", 0)] 200 "out.webp" true true

/-! ## C3: canvas backend choice (create.py lines 53-60) -/

inductive CanvasBackend where
  | inMemory
  | diskBacked
  deriving DecidableEq

/-- Models the canvas storage decision of `create_collage` (create.py
lines 53-60): the collage array is always a numpy memmap backed by a
temporary file (`np.memmap(temp_file.name, ...)`), unconditionally — the
script contains no size check, no threshold configuration, and no
in-memory variant. -/
def selectBackend (_canvasWidth _canvasHeight : ℕ) : CanvasBackend :=
  CanvasBackend.diskBacked

/-- **C3 counterexample.** No threshold makes the code's backend choice
equal to the claimed policy while the policy's in-memory branch is ever
taken on a realizable (non-empty) canvas: any geometry below the
threshold would have to get the in-memory backend, but the code always
picks the disk-backed one. -/
theorem C3_counterexample :
    ¬ ∃ threshold : ℕ,
      (∀ w h : ℕ, selectBackend w h =
        if w * h * 4 > threshold then CanvasBackend.diskBacked
        else CanvasBackend.inMemory) ∧
      (∃ w h : ℕ, 0 < w * h ∧ w * h * 4 ≤ threshold) := by
  rintro ⟨threshold, hpolicy, w, h, hpos, hle⟩
  have h1 := hpolicy w h
  rw [if_neg (by omega)] at h1
  exact CanvasBackend.noConfusion h1

/-- **C3 (amended).** The compositor has no backend selection: it uses the
disk-backed (memory-mapped) canvas for every grid geometry; there is no
in-memory backend and no threshold. -/
theorem C3_backend_always_diskBacked (w h : ℕ) :
    selectBackend w h = CanvasBackend.diskBacked := rfl

/-! ## C8: discovery order (create.py lines 9-33)

The filesystem snapshot provides, for the root directory, the list of its
immediate subdirectories (in arbitrary `os.listdir` order) and, for each,
its directory listing (again in arbitrary order).  Entries of the root
that are not directories are dropped by the `os.path.isdir` filter and
are therefore not part of the snapshot model.  `os.path.join` of the
simple names returned by `os.listdir` is plain concatenation with a
separator. -/

/-- Models `os.path.join(a, b)` for a simple (separator-free,
non-absolute) entry name `b`. -/
def pyJoin (a b : String) : String := a ++ "/" ++ b

/-- Models the filter
`f.lower().endswith(".webp") or f.lower().endswith(".jpg")`
(create.py line 29). -/
def isImageFile (f : String) : Bool :=
  f.toLower.endsWith ".webp" || f.toLower.endsWith ".jpg"

/-- One immediate subdirectory of the root: its name and its directory
listing, both as `os.listdir` reports them (unordered). -/
structure FSDir where
  name : String
  files : List String

/-- A snapshot of the root directory: its immediate subdirectories in
arbitrary order. -/
structure FSRoot where
  dirs : List FSDir

/-- Models `get_sorted_image_paths` (create.py lines 9-33).  The code
sorts the joined subfolder path strings and then lists each folder; since
a folder is identified by its path, this is sorting the (name, listing)
records by joined path.  Within each folder it filters by extension,
joins, and sorts the joined file paths.  Python's `sorted` is modelled by
insertion sort over the string order. -/
def get_sorted_image_paths (root : String) (fs : FSRoot) :
    List String × List String :=
  let subfolders :=
    List.insertionSort
      (fun d₁ d₂ : FSDir => pyJoin root d₁.name ≤ pyJoin root d₂.name)
      fs.dirs
  ((subfolders.map fun d =>
      List.insertionSort (fun a b : String => a ≤ b)
        ((d.files.filter fun f => isImageFile f).map fun f =>
          pyJoin (pyJoin root d.name) f)).flatten,
   subfolders.map fun d => pyJoin root d.name)

/-- The Placement Sequence as the specification words it: the
concatenation, over the name-sorted immediate subdirectories, of the
name-sorted matching filenames of each, as full paths. -/
def specPlacementSequence (root : String) (fs : FSRoot) : List String :=
  ((List.insertionSort (fun d₁ d₂ : FSDir => d₁.name ≤ d₂.name)
      fs.dirs).map fun d =>
    (List.insertionSort (fun a b : String => a ≤ b)
        (d.files.filter fun f => isImageFile f)).map fun f =>
      pyJoin (pyJoin root d.name) f).flatten

lemma char_list_append_lt_iff (p a b : List Char) :
    p ++ a < p ++ b ↔ a < b := by
  show List.Lex (· < ·) (p ++ a) (p ++ b) ↔ List.Lex (· < ·) a b
  induction p with
  | nil => exact Iff.rfl
  | cons c p ih =>
    rw [List.cons_append, List.cons_append, List.Lex.cons_iff]
    exact ih

lemma string_append_lt_iff (p a b : String) : p ++ a < p ++ b ↔ a < b := by
  rw [String.lt_iff_toList_lt, String.lt_iff_toList_lt]
  simp only [String.toList]
  rw [String.data_append, String.data_append]
  exact char_list_append_lt_iff p.data a.data b.data

lemma string_append_le_iff (p a b : String) : p ++ a ≤ p ++ b ↔ a ≤ b := by
  rw [← not_lt, ← not_lt]
  exact not_congr (string_append_lt_iff p b a)

lemma pyJoin_le_iff (root a b : String) :
    pyJoin root a ≤ pyJoin root b ↔ a ≤ b := by
  simp only [pyJoin]
  exact string_append_le_iff (root ++ "/") a b

lemma orderedInsert_congr {α : Type} (r₁ r₂ : α → α → Prop)
    [DecidableRel r₁] [DecidableRel r₂] (hr : ∀ a b, r₁ a b ↔ r₂ a b) :
    ∀ (l : List α) (a : α),
      List.orderedInsert r₁ a l = List.orderedInsert r₂ a l := by
  intro l
  induction l with
  | nil => intro a; rfl
  | cons b l ih =>
    intro a
    simp only [List.orderedInsert]
    by_cases h : r₁ a b
    · rw [if_pos h, if_pos ((hr a b).mp h)]
    · rw [if_neg h, if_neg (fun h2 => h ((hr a b).mpr h2)), ih]

lemma insertionSort_congr {α : Type} (r₁ r₂ : α → α → Prop)
    [DecidableRel r₁] [DecidableRel r₂] (hr : ∀ a b, r₁ a b ↔ r₂ a b) :
    ∀ l : List α, List.insertionSort r₁ l = List.insertionSort r₂ l := by
  intro l
  induction l with
  | nil => rfl
  | cons a l ih =>
    simp only [List.insertionSort]
    rw [ih, orderedInsert_congr r₁ r₂ hr]

lemma orderedInsert_map_le (f : String → String)
    (hf : ∀ a b, f a ≤ f b ↔ a ≤ b) :
    ∀ (l : List String) (a : String),
      List.orderedInsert (fun a b : String => a ≤ b) (f a) (l.map f) =
        (List.orderedInsert (fun a b : String => a ≤ b) a l).map f := by
  intro l
  induction l with
  | nil => intro a; rfl
  | cons b l ih =>
    intro a
    simp only [List.map_cons, List.orderedInsert]
    by_cases h : a ≤ b
    · rw [if_pos ((hf a b).mpr h), if_pos h]
      simp [List.map_cons]
    · rw [if_neg (fun h2 => h ((hf a b).mp h2)), if_neg h]
      rw [List.map_cons, ih]

lemma insertionSort_map_le (f : String → String)
    (hf : ∀ a b, f a ≤ f b ↔ a ≤ b) :
    ∀ l : List String,
      List.insertionSort (fun a b : String => a ≤ b) (l.map f) =
        (List.insertionSort (fun a b : String => a ≤ b) l).map f := by
  intro l
  induction l with
  | nil => rfl
  | cons a l ih =>
    simp only [List.map_cons, List.insertionSort]
    rw [ih, orderedInsert_map_le f hf]

/-- **C8.** The Placement Sequence returned by `get_sorted_image_paths`
equals the concatenation, over the lexicographically name-sorted
subdirectories, of the lexicographically sorted matching filenames of
each; the folder list is the name-sorted subfolder paths; and the result
is a pure function of the snapshot (two runs on an unchanged tree give
identical output). -/
theorem C8_discovery_order (root : String) (fs : FSRoot) :
    (get_sorted_image_paths root fs).1 = specPlacementSequence root fs ∧
    (get_sorted_image_paths root fs).2 =
      (List.insertionSort (fun d₁ d₂ : FSDir => d₁.name ≤ d₂.name)
        fs.dirs).map (fun d => pyJoin root d.name) ∧
    (∀ fs₂ : FSRoot, fs₂ = fs →
      get_sorted_image_paths root fs₂ = get_sorted_image_paths root fs) := by
  have hdirs :
      List.insertionSort
        (fun d₁ d₂ : FSDir => pyJoin root d₁.name ≤ pyJoin root d₂.name)
        fs.dirs =
      List.insertionSort (fun d₁ d₂ : FSDir => d₁.name ≤ d₂.name) fs.dirs :=
    insertionSort_congr _ _
      (fun d₁ d₂ => pyJoin_le_iff root d₁.name d₂.name) fs.dirs
  have hfiles : ∀ d : FSDir,
      List.insertionSort (fun a b : String => a ≤ b)
        ((d.files.filter fun f => isImageFile f).map fun f =>
          pyJoin (pyJoin root d.name) f) =
      (List.insertionSort (fun a b : String => a ≤ b)
        (d.files.filter fun f => isImageFile f)).map fun f =>
          pyJoin (pyJoin root d.name) f := fun d =>
    insertionSort_map_le (fun f => pyJoin (pyJoin root d.name) f)
      (fun a b => pyJoin_le_iff (pyJoin root d.name) a b)
      (d.files.filter fun f => isImageFile f)
  refine ⟨?_, ?_, fun fs₂ h => by rw [h]⟩
  · simp only [get_sorted_image_paths, specPlacementSequence, hdirs, hfiles]
  · simp only [get_sorted_image_paths, hdirs]

/-- Concrete snapshot fixture for the C8 witness: two subfolders listed
out of order, mixed-case extensions, and one non-image file. -/
def sampleFS : FSRoot :=
  ⟨[⟨"zoo", ["b.JPG", "a.webp", "notes.txt"]⟩,
    ⟨"ark", ["two.jpg", "one.WEBP"]⟩]⟩

/-- Witness for C8 on the concrete snapshot. -/
theorem C8_discovery_order_witness :
    (get_sorted_image_paths "root" sampleFS).1 =
      specPlacementSequence "root" sampleFS ∧
    (get_sorted_image_paths "root" sampleFS).2 =
      (List.insertionSort (fun d₁ d₂ : FSDir => d₁.name ≤ d₂.name)
        sampleFS.dirs).map (fun d => pyJoin "root" d.name) ∧
    (∀ fs₂ : FSRoot, fs₂ = sampleFS →
      get_sorted_image_paths "root" fs₂ =
        get_sorted_image_paths "root" sampleFS) :=
  C8_discovery_order "root" sampleFS

end ImageCollage
